import Mathlib

/-!
Verification of the AudioHelper measurement engine (`AudioAnalyzer.py`).

This file gives a shallow embedding of the analyzer's pure computational
core and proves/refutes the specification claims about it.

Modelling conventions:
* Python floats are modelled as exact numbers: `ℚ` where the code only
  performs field operations and comparisons (timestamps, frequencies,
  sample values), `ℝ` where transcendental functions occur
  (`log10`, `exp`, `sqrt`, `10 ** (gain/20)`).
* Kernels shared between the two are polymorphic over a
  `LinearOrderedField`; they are executable at `ℚ`.
* Python list indexing `l[i]` (which wraps negative indices that are
  `≥ -len(l)` and raises `IndexError` otherwise) is `pyGet`; a raised
  exception is `none`, propagated by the `Option` monad.
* `int(x)` truncation toward zero is `pyInt`.
* Message sends (plots, logging) are I/O without effect on analyzer state
  and are not modelled.
-/

namespace AudioAna

/-- Python list indexing `l[i]`: negative indices wrap from the end; an
index out of `[-len l, len l)` raises `IndexError` (modelled as `none`). -/
def pyGet {α : Type} (l : List α) (i : ℤ) : Option α :=
  if 0 ≤ i then l.get? i.toNat
  else if 0 ≤ i + l.length then l.get? (i + l.length).toNat
  else none

/-- Python `int(x)` on a float: truncation toward zero. -/
def pyInt (q : ℚ) : ℤ :=
  if q < 0 then -⌊-q⌋ else ⌊q⌋

/-- Rounding to the nearest integer (halves rounding up), used only in the
spec-side model `powerInBOISpec`. -/
def qround (q : ℚ) : ℤ :=
  ⌊q + 1 / 2⌋

/-- Sum of squares, `np.sum(l ** 2)` (used for `powerTotal`). -/
def sumSq {α : Type} [LinearOrderedField α] (l : List α) : α :=
  (l.map (fun x => x ^ 2)).sum

/-- Full discrete convolution `np.convolve(a, b)`: entry `k` is
`∑ i, a[i] * b[k-i]` over the valid index pairs (out-of-range terms are 0,
matching the mathematical definition numpy implements). -/
def convolve {α : Type} [LinearOrderedField α] (a b : List α) : List α :=
  (List.range (a.length + b.length - 1)).map
    (fun k => ∑ i ∈ Finset.range (k + 1), a.getD i 0 * b.getD (k - i) 0)

/-- Index of the first occurrence of the maximum, `np.argmax`
(0 on the empty list, where numpy would raise). -/
def argmaxL {α : Type} [LinearOrder α] : List α → ℕ
  | [] => 0
  | x :: t => if x < t.getD (argmaxL t) x then argmaxL t + 1 else 0

/-- Power in the buckets of interest (`AudioAnalyzer.analyze`, the
`powerInBOI` computation): bucket index `int(currSweepFreq/distBtwnFreq) - 1`
into the DC-removed spectrum, summing squared magnitudes over the window
`ind-1 .. ind+1` with Python indexing semantics. -/
def powerInBOICalc {α : Type} [LinearOrderedField α] (ampl_list : List α)
    (distBtwnFreq currSweepFreq : ℚ) : Option α :=
  let currSweepFreqInd : ℤ := pyInt (currSweepFreq / distBtwnFreq) - 1
  match pyGet ampl_list (currSweepFreqInd - 1), pyGet ampl_list currSweepFreqInd,
      pyGet ampl_list (currSweepFreqInd + 1) with
  | some a, some b, some c => some (a ^ 2 + b ^ 2 + c ^ 2)
  | _, _, _ => none

/-- Modelled from the spec's words (section 4.4 / claim C6), for comparison
with `powerInBOICalc`: the window of three bins centered on the bin of the
DC-removed spectrum whose frequency `(i+1)·distBtwnFreq` is nearest
`currSweepFreq`, with all three indices required to be valid in-range
indices (no wrapping). -/
def powerInBOISpec {α : Type} [LinearOrderedField α] (ampl_list : List α)
    (distBtwnFreq currSweepFreq : ℚ) : Option α :=
  let ind : ℤ := qround (currSweepFreq / distBtwnFreq) - 1
  let strictGet : ℤ → Option α := fun i => if 0 ≤ i then ampl_list.get? i.toNat else none
  match strictGet (ind - 1), strictGet ind, strictGet (ind + 1) with
  | some a, some b, some c => some (a ^ 2 + b ^ 2 + c ^ 2)
  | _, _, _ => none

/-- Sweep-tone dominance detection (`AudioAnalyzer.analyze` lines 463-471):
convolve the magnitude spectrum with itself, take the argmax, convert to a
frequency, and report the expected frequency iff the detected one is within
a quarter bin of it. -/
def detectFound {α : Type} [LinearOrderedField α] (ampl_list : List α)
    (distBtwnFreq currSweepFreq : ℚ) : Option ℚ :=
  let max_ind := argmaxL (convolve ampl_list ampl_list)
  let det_freq : ℚ := ((max_ind : ℚ) / 2 + 1) * distBtwnFreq
  if |det_freq - currSweepFreq| < distBtwnFreq / 4 then some currSweepFreq else none

/-- Frequencies of the one-sided FFT, `scipy.fft.rfftfreq(n, t)`:
`k / (n*t)` for `k = 0 .. n/2`. -/
def rfftfreq (n : ℕ) (t : ℚ) : List ℚ :=
  (List.range (n / 2 + 1)).map (fun k : ℕ => (k / ((n : ℚ) * t) : ℚ))

/- ------------------------------------------------------------------ -/
/- Helper lemmas about the kernels                                     -/
/- ------------------------------------------------------------------ -/

theorem getD_congr {α : Type} (l : List α) {i : ℕ} (h : i < l.length) (d d' : α) :
    l.getD i d = l.getD i d' := by
  simp [List.getD_eq_getElem?_getD, List.getElem?_eq_getElem h]

theorem argmaxL_lt_length {α : Type} [LinearOrder α] :
    ∀ l : List α, l ≠ [] → argmaxL l < l.length := by
  intro l
  induction l with
  | nil => intro h; exact absurd rfl h
  | cons x t ih =>
    intro _
    by_cases h : x < t.getD (argmaxL t) x
    · have ht : t ≠ [] := by
        rintro rfl
        simp [List.getD] at h
      simp only [argmaxL, if_pos h, List.length_cons]
      exact Nat.succ_lt_succ (ih ht)
    · simp only [argmaxL, if_neg h, List.length_cons]
      exact Nat.succ_pos _

theorem argmaxL_le {α : Type} [LinearOrder α] :
    ∀ (l : List α) (d : α) (i : ℕ), i < l.length →
      l.getD i d ≤ l.getD (argmaxL l) d := by
  intro l
  induction l with
  | nil => intro d i h; simp at h
  | cons x t ih =>
    intro d i hi
    by_cases h : x < t.getD (argmaxL t) x
    · have ht : t ≠ [] := by
        rintro rfl
        simp [List.getD] at h
      have hm : argmaxL t < t.length := argmaxL_lt_length t ht
      simp only [argmaxL, if_pos h]
      cases i with
      | zero =>
        simp only [List.getD_cons_zero, List.getD_cons_succ]
        exact le_of_lt (lt_of_lt_of_le h (le_of_eq (getD_congr t hm x d)))
      | succ j =>
        simp only [List.getD_cons_succ]
        exact ih d j (Nat.lt_of_succ_lt_succ hi)
    · simp only [argmaxL, if_neg h, List.getD_cons_zero]
      cases i with
      | zero => simp
      | succ j =>
        have hj : j < t.length := Nat.lt_of_succ_lt_succ hi
        have ht : t ≠ [] := by
          rintro rfl
          simp at hj
        have hm : argmaxL t < t.length := argmaxL_lt_length t ht
        simp only [List.getD_cons_succ]
        calc t.getD j d ≤ t.getD (argmaxL t) d := ih d j hj
          _ = t.getD (argmaxL t) x := getD_congr t hm d x
          _ ≤ x := not_lt.mp h

theorem argmaxL_first {α : Type} [LinearOrder α] :
    ∀ (l : List α) (d : α) (j : ℕ), j < argmaxL l →
      l.getD j d < l.getD (argmaxL l) d := by
  intro l
  induction l with
  | nil => intro d j h; simp [argmaxL] at h
  | cons x t ih =>
    intro d j hj
    by_cases h : x < t.getD (argmaxL t) x
    · have ht : t ≠ [] := by
        rintro rfl
        simp [List.getD] at h
      have hm : argmaxL t < t.length := argmaxL_lt_length t ht
      simp only [argmaxL, if_pos h] at hj ⊢
      cases j with
      | zero =>
        simp only [List.getD_cons_zero, List.getD_cons_succ]
        exact lt_of_lt_of_le h (le_of_eq (getD_congr t hm x d))
      | succ k =>
        simp only [List.getD_cons_succ]
        exact ih d k (Nat.lt_of_succ_lt_succ hj)
    · simp only [argmaxL, if_neg h] at hj
      exact absurd hj (Nat.not_lt_zero j)

theorem pyGet_nonneg {α : Type} (l : List α) (i : ℤ) (h0 : 0 ≤ i)
    (hl : i < (l.length : ℤ)) (d : α) : pyGet l i = some (l.getD i.toNat d) := by
  have hn : i.toNat < l.length := by omega
  simp [pyGet, if_pos h0, List.get?_eq_getElem?, List.getElem?_eq_getElem hn,
    List.getD_eq_getElem?_getD]

/- ------------------------------------------------------------------ -/
/- Claim C5: tone detection via self-convolution argmax               -/
/- ------------------------------------------------------------------ -/

/-- Claim C5 (confirmed). For every magnitude spectrum analyzed with a
positive expected stimulus frequency, the detector convolves the spectrum
with itself, takes the argmax index `m` of the convolution (first index of
a maximal entry, which the last two conjuncts characterize), computes the
detected frequency `((m/2)+1) * bin_width`, and declares the frequency
found if and only if `|detected - expected| < bin_width / 4`. -/
theorem C5_tone_detector {α : Type} [LinearOrderedField α]
    (ampl_list : List α) (distBtwnFreq currSweepFreq : ℚ) (d : α) :
    (detectFound ampl_list distBtwnFreq currSweepFreq = some currSweepFreq ↔
      |((argmaxL (convolve ampl_list ampl_list) : ℚ) / 2 + 1) * distBtwnFreq
          - currSweepFreq| < distBtwnFreq / 4) ∧
    (convolve ampl_list ampl_list ≠ [] →
      argmaxL (convolve ampl_list ampl_list) < (convolve ampl_list ampl_list).length) ∧
    (∀ i, i < (convolve ampl_list ampl_list).length →
      (convolve ampl_list ampl_list).getD i d ≤
        (convolve ampl_list ampl_list).getD (argmaxL (convolve ampl_list ampl_list)) d) ∧
    (∀ j, j < argmaxL (convolve ampl_list ampl_list) →
      (convolve ampl_list ampl_list).getD j d <
        (convolve ampl_list ampl_list).getD (argmaxL (convolve ampl_list ampl_list)) d) := by
  refine ⟨?_, argmaxL_lt_length _, argmaxL_le _ d, argmaxL_first _ d⟩
  simp only [detectFound]
  split_ifs with h
  · simp [h]
  · simp [h]

/-- Witness for C5 at a concrete spectrum `[1, 2]` (so the convolution is
`[1, 4, 4]`, whose first maximum is at index 1). -/
theorem C5_tone_detector_witness :
    0 < (convolve ([1, 2] : List ℚ) [1, 2]).length ∧
    (convolve ([1, 2] : List ℚ) [1, 2]).getD 0 0 ≤
      (convolve ([1, 2] : List ℚ) [1, 2]).getD
        (argmaxL (convolve ([1, 2] : List ℚ) [1, 2])) 0 :=
  ⟨by decide, (C5_tone_detector ([1, 2] : List ℚ) 10 25 0).2.2.1 0 (by decide)⟩

/- ------------------------------------------------------------------ -/
/- Claim C6: power in the buckets of interest                          -/
/- ------------------------------------------------------------------ -/

/-- Claim C6 counterexample. With bin width 10 and expected frequency 59,
the DC-removed bin nearest 59 Hz is index 5 (60 Hz), so the claimed window
is `{4,5,6}` (sum 0 on this spectrum); the code instead uses
`int(59/10) - 1 = 4` as the center (the bin at-or-below the frequency),
window `{3,4,5}`, summing to 49.  Hence `power_in_band` is not the sum over
the window centered on the nearest bin. -/
theorem C6_power_in_band_counterexample :
    powerInBOICalc ([0, 0, 0, 7, 0, 0, 0, 0] : List ℚ) 10 59 = some 49 ∧
    powerInBOISpec ([0, 0, 0, 7, 0, 0, 0, 0] : List ℚ) 10 59 = some 0 ∧
    (49 : ℚ) ≠ 0 := by
  have h5 : pyInt ((59 : ℚ) / 10) = 5 := by norm_num [pyInt]
  have h6 : qround ((59 : ℚ) / 10) = 6 := by norm_num [qround]
  refine ⟨?_, ?_, by norm_num⟩
  · simp only [powerInBOICalc, h5]
    norm_num [pyGet]
    simp
    norm_num
  · simp only [powerInBOISpec, h6]
    norm_num
    simp

/-- Claim C6 as amended: `power_in_band` is the sum of squared magnitudes
over the three DC-removed bins at indices `int(f/Δ)-2`, `int(f/Δ)-1`,
`int(f/Δ)` (the ±1 window around the bin at-or-below `f`, not around the
nearest bin), and those indices are in range only under the stated bounds
on `int(f/Δ)` (for frequencies below `2Δ` the Python code wraps around to
the end of the spectrum; past the top it raises). -/
theorem C6_power_in_band_amended {α : Type} [LinearOrderedField α]
    (ampl_list : List α) (distBtwnFreq currSweepFreq : ℚ)
    (h2 : 2 ≤ pyInt (currSweepFreq / distBtwnFreq))
    (hlen : pyInt (currSweepFreq / distBtwnFreq) < (ampl_list.length : ℤ)) :
    powerInBOICalc ampl_list distBtwnFreq currSweepFreq =
      some (ampl_list.getD (pyInt (currSweepFreq / distBtwnFreq) - 2).toNat 0 ^ 2 +
            ampl_list.getD (pyInt (currSweepFreq / distBtwnFreq) - 1).toNat 0 ^ 2 +
            ampl_list.getD (pyInt (currSweepFreq / distBtwnFreq)).toNat 0 ^ 2) := by
  simp only [powerInBOICalc]
  have e1 : pyInt (currSweepFreq / distBtwnFreq) - 1 - 1 =
      pyInt (currSweepFreq / distBtwnFreq) - 2 := by ring
  have e2 : pyInt (currSweepFreq / distBtwnFreq) - 1 + 1 =
      pyInt (currSweepFreq / distBtwnFreq) := by ring
  rw [e1, e2,
    pyGet_nonneg ampl_list _ (by omega) (by omega) 0,
    pyGet_nonneg ampl_list _ (by omega) (by omega) 0,
    pyGet_nonneg ampl_list _ (by omega) (by omega) 0]

/-- Witness for C6 as amended: spectrum `[1,2,3,4,5]`, bin width 10,
frequency 35 Hz, so `int(35/10) = 3` and the window sums
`2² + 3² + 4² = 29`. -/
theorem C6_power_in_band_amended_witness :
    2 ≤ pyInt ((35 : ℚ) / 10) ∧
    powerInBOICalc ([1, 2, 3, 4, 5] : List ℚ) 10 35 = some 29 := by
  refine ⟨by norm_num [pyInt], ?_⟩
  rw [C6_power_in_band_amended ([1, 2, 3, 4, 5] : List ℚ) 10 35 (by norm_num [pyInt])
    (by norm_num [pyInt])]
  norm_num [pyInt]
  simp
  norm_num

/- ------------------------------------------------------------------ -/
/- History buffer (`hist_clean` / `hist_add`)                          -/
/- ------------------------------------------------------------------ -/

/-- Per-buffer metrics stored with each history entry
(`buf_data_list = [bufDuration, toneDuration, foundSweepFreq, powerTotal,
powerInBOI]`). `foundSweepFreq`/`powerInBOI` are `none` for buffers not
captured during a sweep (Python `None`). -/
structure BufData where
  bufDuration : ℚ
  toneDuration : ℚ
  foundSweepFreq : Option ℚ
  powerTotal : ℝ
  powerInBOI : Option ℝ

/-- One history entry `[timestamp, freq_list, ampl_list, buf_data_list]`. -/
structure HistEntry where
  timestamp : ℚ
  freq_list : List ℚ
  ampl_list : List ℝ
  bufData : BufData

/-- `AudioAnalyzer.hist_clean`: scan from the front for the first entry with
`timestamp >= now - hist_dur` and delete everything before it (the while
loop with `del self.hist_list[:ind]` is exactly `dropWhile`). -/
def hist_clean (hist_dur now : ℚ) (hist_list : List HistEntry) : List HistEntry :=
  hist_list.dropWhile (fun e => decide (e.timestamp < now - hist_dur))

/-- `AudioAnalyzer.hist_add`: clean, then append the new entry stamped with
the current monotonic time. -/
def hist_add (hist_dur now : ℚ) (freq_list : List ℚ) (ampl_list : List ℝ)
    (bufData : BufData) (hist_list : List HistEntry) : List HistEntry :=
  hist_clean hist_dur now hist_list ++ [⟨now, freq_list, ampl_list, bufData⟩]

/-- Timestamps are nondecreasing along the history list (true of the real
list since entries are appended with a monotonic clock). -/
def TimeSorted (l : List HistEntry) : Prop :=
  l.Pairwise (fun a b => a.timestamp ≤ b.timestamp)

theorem hist_clean_mem (hist_dur now : ℚ) (l : List HistEntry)
    (hsort : TimeSorted l) (e : HistEntry) :
    e ∈ hist_clean hist_dur now l ↔ e ∈ l ∧ now - hist_dur ≤ e.timestamp := by
  induction l with
  | nil => simp [hist_clean]
  | cons a t ih =>
    rw [TimeSorted, List.pairwise_cons] at hsort
    obtain ⟨ha, ht⟩ := hsort
    by_cases h : a.timestamp < now - hist_dur
    · rw [hist_clean, List.dropWhile_cons_of_pos (by simpa using h)]
      rw [hist_clean] at ih
      rw [ih ht]
      constructor
      · rintro ⟨hm, hts⟩
        exact ⟨List.mem_cons_of_mem a hm, hts⟩
      · rintro ⟨hm, hts⟩
        rcases List.mem_cons.mp hm with rfl | hm
        · exact absurd hts (not_le.mpr h)
        · exact ⟨hm, hts⟩
    · rw [hist_clean, List.dropWhile_cons_of_neg (by simpa using h)]
      constructor
      · intro hm
        refine ⟨hm, ?_⟩
        rcases List.mem_cons.mp hm with rfl | hm'
        · exact not_lt.mp h
        · exact le_trans (not_lt.mp h) (ha e hm')
      · exact fun hm => hm.1

/- ------------------------------------------------------------------ -/
/- Claim C3: age-out boundary of the history window                    -/
/- ------------------------------------------------------------------ -/

/-- A minimal concrete history entry used in counterexamples/witnesses. -/
def ceEntry (ts : ℚ) : HistEntry :=
  ⟨ts, [], [], ⟨0, 0, none, 0, none⟩⟩

/-- Claim C3 counterexample. With `hist_dur = 3` and `now = 10`, an entry
captured at exactly `now - hist_dur = 7` is RETAINED by `hist_clean`
(the code keeps entries with `timestamp >= age_out_time`), and therefore
participates in the history average and stimulus summary — the claim says
such an entry is excluded. -/
theorem C3_age_out_counterexample :
    hist_clean 3 10 [ceEntry 7] = [ceEntry 7] ∧ ceEntry 7 ∈ hist_clean 3 10 [ceEntry 7] := by
  have h : hist_clean 3 10 [ceEntry 7] = [ceEntry 7] := by
    rw [hist_clean, List.dropWhile_cons_of_neg (by norm_num [ceEntry])]
  exact ⟨h, by rw [h]; exact List.mem_singleton.mpr rfl⟩

/-- Claim C3 as amended: an entry is evicted exactly when
`captured_at < now - history_window` (strict), so entries strictly older
than the window never survive into the list over which the average and the
stimulus summary are computed, while an entry at exactly `now - window` is
retained.  Membership in the post-`hist_add` list (the list the analysis
pass then scans) is: old entries with `now - window ≤ captured_at`, plus
the newly appended entry. -/
theorem C3_age_out_amended (hist_dur now : ℚ) (fr : List ℚ) (am : List ℝ)
    (bd : BufData) (l : List HistEntry) (hsort : TimeSorted l) (e : HistEntry) :
    e ∈ hist_add hist_dur now fr am bd l ↔
      (e ∈ l ∧ now - hist_dur ≤ e.timestamp) ∨ e = ⟨now, fr, am, bd⟩ := by
  rw [hist_add, List.mem_append, List.mem_singleton, hist_clean_mem hist_dur now l hsort e]

/-- Witness for C3 as amended: with window 3 at time 10, the boundary entry
(timestamp 7) of a two-entry history is retained by the pass. -/
theorem C3_age_out_amended_witness :
    TimeSorted [ceEntry 5, ceEntry 7] ∧
    (ceEntry 7 ∈ hist_add 3 10 [] [] ⟨0, 0, none, 0, none⟩ [ceEntry 5, ceEntry 7] ↔
      (ceEntry 7 ∈ [ceEntry 5, ceEntry 7] ∧ (10 : ℚ) - 3 ≤ (ceEntry 7).timestamp) ∨
        ceEntry 7 = ⟨10, [], [], ⟨0, 0, none, 0, none⟩⟩) := by
  have hs : TimeSorted [ceEntry 5, ceEntry 7] := by
    rw [TimeSorted, List.pairwise_cons]
    refine ⟨?_, List.pairwise_singleton _ _⟩
    intro b hb
    rw [List.mem_singleton] at hb
    subst hb
    norm_num [ceEntry]
  exact ⟨hs, C3_age_out_amended 3 10 [] [] ⟨0, 0, none, 0, none⟩ [ceEntry 5, ceEntry 7] hs (ceEntry 7)⟩

/- ------------------------------------------------------------------ -/
/- Claim C9: geometric spacing of sweep tone frequencies               -/
/- ------------------------------------------------------------------ -/

/-- Sweep tone frequency generated in state `SWEEP_GEN_TONE`
(`AudioAnalyzer.run`, line 978):
`start_freq * (stop_freq / start_freq) ** (cnt / (sweep_points - 1))`.
With `sweep_points = 1` the Python expression raises `ZeroDivisionError`
(`cnt / 0` on integers), modelled as `none`. -/
noncomputable def sweepToneFreq (start_freq stop_freq : ℚ) (sweep_points sweep_freq_cnt : ℕ) :
    Option ℝ :=
  if sweep_points = 1 then none
  else some ((start_freq : ℝ) *
    ((stop_freq : ℝ) / (start_freq : ℝ)) ^ ((sweep_freq_cnt : ℝ) / ((sweep_points : ℝ) - 1)))

/-- Claim C9 counterexample. The sweep-point count 1 lies in the allowed
range `[1, 100]` (it is the clamping minimum of `changeSweepPoints`), yet
generating the first sweep tone then divides by `sweep_points - 1 = 0`:
the frequency is not well-defined (Python raises `ZeroDivisionError`). -/
theorem C9_geometric_spacing_counterexample :
    sweepToneFreq 50 20000 1 0 = none := by
  simp [sweepToneFreq]

/-- Claim C9 as amended: for point counts in `[2, 100]` (but not for 1,
where the computation fails) the k-th sweep tone frequency is
`f_start * (f_stop / f_start) ^ (k / (points - 1))`; in particular the
first tone is `f_start` and tone `points - 1` is `f_stop`. -/
theorem C9_geometric_spacing_amended (start_freq stop_freq : ℚ) (sweep_points k : ℕ)
    (h2 : 2 ≤ sweep_points) (hs : 0 < start_freq) :
    sweepToneFreq start_freq stop_freq sweep_points k =
      some ((start_freq : ℝ) *
        ((stop_freq : ℝ) / (start_freq : ℝ)) ^ ((k : ℝ) / ((sweep_points : ℝ) - 1))) ∧
    sweepToneFreq start_freq stop_freq sweep_points 0 = some (start_freq : ℝ) ∧
    sweepToneFreq start_freq stop_freq sweep_points (sweep_points - 1) =
      some (stop_freq : ℝ) := by
  have hne : sweep_points ≠ 1 := by omega
  have hcast : (2 : ℝ) ≤ (sweep_points : ℝ) := by exact_mod_cast h2
  have hden : ((sweep_points : ℝ) - 1) ≠ 0 := by linarith
  have hs0 : (start_freq : ℝ) ≠ 0 := ne_of_gt (by exact_mod_cast hs)
  refine ⟨by rw [sweepToneFreq, if_neg hne], ?_, ?_⟩
  · rw [sweepToneFreq, if_neg hne]
    norm_num
  · rw [sweepToneFreq, if_neg hne]
    have hc : ((sweep_points - 1 : ℕ) : ℝ) = (sweep_points : ℝ) - 1 := by
      have h1 : 1 ≤ sweep_points := by omega
      push_cast [h1]
      ring
    rw [hc, div_self hden, Real.rpow_one, mul_div_cancel₀ _ hs0]

/-- Witness for C9 as amended: a 10-point sweep from 50 Hz to 20 kHz starts
at 50 Hz. -/
theorem C9_geometric_spacing_amended_witness :
    2 ≤ (10 : ℕ) ∧ (0 : ℚ) < 50 ∧ sweepToneFreq 50 20000 10 0 = some (50 : ℝ) := by
  refine ⟨by norm_num, by norm_num, ?_⟩
  have h := (C9_geometric_spacing_amended 50 20000 10 0 (by norm_num) (by norm_num)).2.1
  simpa using h

/- ------------------------------------------------------------------ -/
/- History scan and sweep-point statistics                             -/
/- ------------------------------------------------------------------ -/

/-- Accumulator of the history loop (`AudioAnalyzer.analyze` lines
500-537): the `all*` arrays collect every entry, the `freqFound*` arrays
(`ff*`) collect entries whose `foundSweepFreq` matches the current sweep
frequency and whose tone duration reached `settle_dur`. The numpy arrays
are preallocated and filled by index; collecting by append yields exactly
the slices `[0:hist_len]` / `[0:cntFreqFound]` the code then uses. -/
structure ScanAcc where
  allTS : List ℚ
  allBufDur : List ℚ
  allPowerTotal : List ℝ
  ffTS : List ℚ
  ffBufDur : List ℚ
  ffPower : List ℝ

/-- Body of the history loop for one entry: record the entry in the `all*`
arrays, then — unless the entry is for the wrong frequency or its tone had
not settled — also in the `freqFound*` arrays. -/
def scanStep (currSweepFreq settle_dur : ℚ) (acc : ScanAcc) (e : HistEntry) : ScanAcc :=
  let acc1 : ScanAcc := { acc with
    allTS := acc.allTS ++ [e.timestamp],
    allBufDur := acc.allBufDur ++ [e.bufData.bufDuration],
    allPowerTotal := acc.allPowerTotal ++ [e.bufData.powerTotal] }
  if e.bufData.foundSweepFreq ≠ some currSweepFreq then acc1
  else if e.bufData.toneDuration < settle_dur then acc1
  else { acc1 with
    ffTS := acc1.ffTS ++ [e.timestamp],
    ffBufDur := acc1.ffBufDur ++ [e.bufData.bufDuration],
    ffPower := acc1.ffPower ++ [e.bufData.powerInBOI.getD 0] }

/-- The history loop over the whole history list. -/
def scanHist (currSweepFreq settle_dur : ℚ) (hist : List HistEntry) : ScanAcc :=
  hist.foldl (scanStep currSweepFreq settle_dur) ⟨[], [], [], [], [], []⟩

/-- An entry matches the current sweep point: detection found the expected
frequency and the tone had been active at least `settle_dur`. -/
def matchingB (currSweepFreq settle_dur : ℚ) (e : HistEntry) : Bool :=
  decide (e.bufData.foundSweepFreq = some currSweepFreq) &&
    decide (settle_dur ≤ e.bufData.toneDuration)

theorem scan_foldl_eq (c s : ℚ) :
    ∀ (h : List HistEntry) (acc : ScanAcc),
      h.foldl (scanStep c s) acc =
        ⟨acc.allTS ++ h.map (fun e => e.timestamp),
         acc.allBufDur ++ h.map (fun e => e.bufData.bufDuration),
         acc.allPowerTotal ++ h.map (fun e => e.bufData.powerTotal),
         acc.ffTS ++ (h.filter (matchingB c s)).map (fun e => e.timestamp),
         acc.ffBufDur ++ (h.filter (matchingB c s)).map (fun e => e.bufData.bufDuration),
         acc.ffPower ++ (h.filter (matchingB c s)).map (fun e => e.bufData.powerInBOI.getD 0)⟩ := by
  intro h
  induction h with
  | nil => intro acc; cases acc; simp
  | cons e t ih =>
    intro acc
    rw [List.foldl_cons, ih]
    by_cases h1 : e.bufData.foundSweepFreq = some c
    · by_cases h2 : s ≤ e.bufData.toneDuration
      · have hm : matchingB c s e = true := by
          simp [matchingB, h1, h2]
        have hstep : scanStep c s acc e =
            { acc with
              allTS := acc.allTS ++ [e.timestamp],
              allBufDur := acc.allBufDur ++ [e.bufData.bufDuration],
              allPowerTotal := acc.allPowerTotal ++ [e.bufData.powerTotal],
              ffTS := acc.ffTS ++ [e.timestamp],
              ffBufDur := acc.ffBufDur ++ [e.bufData.bufDuration],
              ffPower := acc.ffPower ++ [e.bufData.powerInBOI.getD 0] } := by
          rw [scanStep, if_neg (by simpa using h1), if_neg (not_lt.mpr h2)]
        rw [hstep, List.filter_cons_of_pos hm]
        simp
      · have hm : matchingB c s e = false := by
          simp [matchingB, h2]
        have hstep : scanStep c s acc e =
            { acc with
              allTS := acc.allTS ++ [e.timestamp],
              allBufDur := acc.allBufDur ++ [e.bufData.bufDuration],
              allPowerTotal := acc.allPowerTotal ++ [e.bufData.powerTotal] } := by
          rw [scanStep, if_neg (by simpa using h1), if_pos (not_le.mp h2)]
        rw [hstep, List.filter_cons_of_neg (by simp [hm])]
        simp
    · have hm : matchingB c s e = false := by
        simp [matchingB, h1]
      have hstep : scanStep c s acc e =
          { acc with
            allTS := acc.allTS ++ [e.timestamp],
            allBufDur := acc.allBufDur ++ [e.bufData.bufDuration],
            allPowerTotal := acc.allPowerTotal ++ [e.bufData.powerTotal] } := by
        rw [scanStep, if_pos (by simpa using h1)]
      rw [hstep, List.filter_cons_of_neg (by simp [hm])]
      simp

/-- Closed form of the history scan: the `all*` arrays are the projections
of the history, the `freqFound*` arrays the projections of its matching
sublist. -/
theorem scanHist_eq (c s : ℚ) (h : List HistEntry) :
    scanHist c s h =
      ⟨h.map (fun e => e.timestamp),
       h.map (fun e => e.bufData.bufDuration),
       h.map (fun e => e.bufData.powerTotal),
       (h.filter (matchingB c s)).map (fun e => e.timestamp),
       (h.filter (matchingB c s)).map (fun e => e.bufData.bufDuration),
       (h.filter (matchingB c s)).map (fun e => e.bufData.powerInBOI.getD 0)⟩ := by
  rw [scanHist, scan_foldl_eq]
  simp

/-- Minimum of a list, `np.min` (0 on the empty list, where numpy raises;
the code only evaluates it under a `cntFreqFound > 0` guard). -/
noncomputable def listMin : List ℝ → ℝ
  | [] => 0
  | x :: t => t.foldl min x

/-- Maximum of a list, `np.max` (0 on the empty list). -/
noncomputable def listMax : List ℝ → ℝ
  | [] => 0
  | x :: t => t.foldl max x

/-- Arithmetic mean of a list, `np.average` (0/0 = 0 on the empty list). -/
noncomputable def listAvg (l : List ℝ) : ℝ :=
  l.sum / l.length

/-- Conversion of a power to decibels, `10 * np.log10 x`. -/
noncomputable def db10 (x : ℝ) : ℝ :=
  10 * Real.logb 10 x

/-- The sublist a slice `[cnt-3 : cnt]` selects once `cnt > 3`: the three
most recent elements (the whole list when `cnt ≤ 3`). -/
def last3 {α : Type} (l : List α) : List α :=
  if 3 < l.length then l.drop (l.length - 3) else l

/-- Result of the two statistics blocks (`AudioAnalyzer.analyze` lines
565-592) over the matching powers `freqFoundPowerInBOI_list[0:cnt]`. -/
structure SweepStats where
  avg_lin : ℝ
  avg_db : ℝ
  min_db : ℝ
  max_db : ℝ

/-- The two statistics blocks: all values are 0 when no entry matches; with
`cnt > 0` the statistics are over the full slice `[0:cnt]`; with `cnt > 3`
the dB statistics are recomputed over the slice `[cnt-3:cnt]` — but the
linear average `avg_powerInBOI` (line 585) is recomputed BEFORE `f`/`l` are
narrowed, i.e. still over the full slice. -/
noncomputable def sweepPointStats (powers : List ℝ) : SweepStats :=
  let cnt := powers.length
  let s1 : SweepStats :=
    if 0 < cnt then
      ⟨listAvg powers, db10 (listAvg powers), db10 (listMin powers), db10 (listMax powers)⟩
    else ⟨0, 0, 0, 0⟩
  if 3 < cnt then
    ⟨listAvg powers,
     db10 (listAvg (powers.drop (cnt - 3))),
     db10 (listMin (powers.drop (cnt - 3))),
     db10 (listMax (powers.drop (cnt - 3)))⟩
  else s1

/-- Elapsed wall time covered by a set of entries (`ts[-1] - ts[0] +
bufDur[-1]`), 0 when there are none. -/
def elapsedOf (ts bufdur : List ℚ) : ℚ :=
  if 0 < ts.length then (ts.getLast?).getD 0 - (ts.head?).getD 0 + (bufdur.getLast?).getD 0
  else 0

/-- Total elapsed time over the whole history (`totalBufElapsed`). -/
def totalBufElapsed (acc : ScanAcc) : ℚ :=
  elapsedOf acc.allTS acc.allBufDur

/-- Elapsed time over the matching entries (`sweepBufElapsed`). -/
def sweepBufElapsed (acc : ScanAcc) : ℚ :=
  elapsedOf acc.ffTS acc.ffBufDur

open Classical in
/-- Sweep-point readiness decision (`AudioAnalyzer.analyze` lines 606-617),
exactly the code's control flow: not ready unless the current buffer found
the tone and the tone has settled; then ready, unless — when the elapsed
matching time has not yet reached the timeout `0.8 * totalBufElapsed` —
fewer than 3 entries match or the dB spread exceeds 3. -/
def sweepReadyCalc (foundSweepFreq : Option ℚ) (currSweepFreq toneDuration settle_dur : ℚ)
    (cntFreqFound : ℕ) (sweepElapsed totalElapsed : ℚ) (min_db max_db : ℝ) : Prop :=
  let sweep_timeout := (0.8 : ℚ) * totalElapsed
  if foundSweepFreq = some currSweepFreq ∧ settle_dur ≤ toneDuration then
    if sweep_timeout ≤ sweepElapsed then True
    else if cntFreqFound < 3 then False
    else if 3 < max_db - min_db then False
    else True
  else False

theorem sweepPointStats_min_db (l : List ℝ) :
    (sweepPointStats l).min_db = db10 (listMin (last3 l)) := by
  simp only [sweepPointStats, last3]
  split_ifs with h3 h0
  · rfl
  · rfl
  · have : l = [] := List.length_eq_zero.mp (by omega)
    subst this
    simp [listMin, db10, Real.logb_zero]

theorem sweepPointStats_max_db (l : List ℝ) :
    (sweepPointStats l).max_db = db10 (listMax (last3 l)) := by
  simp only [sweepPointStats, last3]
  split_ifs with h3 h0
  · rfl
  · rfl
  · have : l = [] := List.length_eq_zero.mp (by omega)
    subst this
    simp [listMax, db10, Real.logb_zero]

theorem sweepPointStats_avg_db (l : List ℝ) :
    (sweepPointStats l).avg_db = db10 (listAvg (last3 l)) := by
  simp only [sweepPointStats, last3]
  split_ifs with h3 h0
  · rfl
  · rfl
  · have : l = [] := List.length_eq_zero.mp (by omega)
    subst this
    simp [listAvg, db10, Real.logb_zero]

/-- The linear average that feeds the recorded sweep amplitude is over the
FULL matching slice in both statistics blocks (line 585 recomputes it
before `f`/`l` are narrowed to the last three entries). -/
theorem sweepPointStats_avg_lin (l : List ℝ) :
    (sweepPointStats l).avg_lin = listAvg l := by
  simp only [sweepPointStats]
  split_ifs with h3 h0
  · rfl
  · rfl
  · have : l = [] := List.length_eq_zero.mp (by omega)
    subst this
    simp [listAvg]

/-- Modelled from the spec's words (claim C1), for comparison with
`sweepReadyCalc`: acceptance requires found-and-settled, and then at least
3 matching entries with the dB spread of their `power_in_band` — over ALL
matching entries — at most 3 dB, unless the matching elapsed time reaches
80% of the total history time span. -/
def sweepReadySpecClaim (foundSweepFreq : Option ℚ)
    (currSweepFreq toneDuration settle_dur : ℚ) (hist : List HistEntry) : Prop :=
  let ps := (hist.filter (matchingB currSweepFreq settle_dur)).map
    (fun e => e.bufData.powerInBOI.getD 0)
  let acc := scanHist currSweepFreq settle_dur hist
  foundSweepFreq = some currSweepFreq ∧ settle_dur ≤ toneDuration ∧
    ((0.8 : ℚ) * totalBufElapsed acc ≤ sweepBufElapsed acc ∨
      (3 ≤ ps.length ∧ db10 (listMax ps) - db10 (listMin ps) ≤ 3))

/-- General characterization of the readiness decision on an arbitrary
history: the code's nested control flow is equivalent to the logical
formula — with the dB spread taken over the (up to) 3 most recent matching
entries, not over all of them. -/
theorem sweepReady_iff (fnd : Option ℚ) (curr toneDur settle : ℚ) (hist : List HistEntry) :
    sweepReadyCalc fnd curr toneDur settle
        (scanHist curr settle hist).ffPower.length
        (sweepBufElapsed (scanHist curr settle hist))
        (totalBufElapsed (scanHist curr settle hist))
        (sweepPointStats (scanHist curr settle hist).ffPower).min_db
        (sweepPointStats (scanHist curr settle hist).ffPower).max_db ↔
      (fnd = some curr ∧ settle ≤ toneDur ∧
        ((0.8 : ℚ) * totalBufElapsed (scanHist curr settle hist) ≤
            sweepBufElapsed (scanHist curr settle hist) ∨
          (3 ≤ (hist.filter (matchingB curr settle)).length ∧
            db10 (listMax (last3 ((hist.filter (matchingB curr settle)).map
                (fun e => e.bufData.powerInBOI.getD 0)))) -
              db10 (listMin (last3 ((hist.filter (matchingB curr settle)).map
                (fun e => e.bufData.powerInBOI.getD 0)))) ≤ 3))) := by
  have hP : (scanHist curr settle hist).ffPower =
      (hist.filter (matchingB curr settle)).map (fun e => e.bufData.powerInBOI.getD 0) := by
    rw [scanHist_eq]
  have hlm : ((hist.filter (matchingB curr settle)).map
      (fun e => e.bufData.powerInBOI.getD 0)).length =
      (hist.filter (matchingB curr settle)).length := List.length_map _ _
  rw [sweepPointStats_min_db, sweepPointStats_max_db, hP]
  simp only [sweepReadyCalc]
  split_ifs with h1 h2 h3 h4
  · exact iff_of_true trivial ⟨h1.1, h1.2, Or.inl h2⟩
  · refine iff_of_false (fun h => h) ?_
    rintro ⟨-, -, hc | ⟨hcnt, -⟩⟩
    · exact h2 hc
    · omega
  · refine iff_of_false (fun h => h) ?_
    rintro ⟨-, -, hc | ⟨-, hsp⟩⟩
    · exact h2 hc
    · exact absurd hsp (not_le.mpr h4)
  · exact iff_of_true trivial ⟨h1.1, h1.2, Or.inr ⟨by omega, not_lt.mp h4⟩⟩
  · refine iff_of_false (fun h => h) ?_
    rintro ⟨ha, hb, -⟩
    exact h1 ⟨ha, hb⟩

/- ------------------------------------------------------------------ -/
/- Claims C1 and C4                                                    -/
/- ------------------------------------------------------------------ -/

/-- A history entry of a buffer captured outside any sweep tone. -/
def ceIdleEntry : HistEntry :=
  ⟨0, [], [], ⟨0.1, 0, none, 0, none⟩⟩

/-- A history entry of a settled buffer that found the 5 Hz sweep tone with
`power_in_band` `p`. -/
def ceSweepEntry (ts : ℚ) (p : ℝ) : HistEntry :=
  ⟨ts, [], [], ⟨0.1, 2, some 5, 0, some p⟩⟩

/-- Concrete history for the C1 counterexample: one old non-matching buffer
(stretching the total time span so the timeout escape is not triggered) and
four matching buffers whose `power_in_band` values are 1, 1000, 1000, 1000
(0 dB, 30 dB, 30 dB, 30 dB). -/
def ceHist : List HistEntry :=
  [ceIdleEntry, ceSweepEntry 10 1, ceSweepEntry 11 1000,
   ceSweepEntry 12 1000, ceSweepEntry 13 1000]

theorem ceHist_scan :
    scanHist 5 1 ceHist =
      ⟨[0, 10, 11, 12, 13], [0.1, 0.1, 0.1, 0.1, 0.1], [0, 0, 0, 0, 0],
       [10, 11, 12, 13], [0.1, 0.1, 0.1, 0.1], [1, 1000, 1000, 1000]⟩ := by
  rw [scanHist_eq]
  norm_num [ceHist, ceSweepEntry, ceIdleEntry, matchingB, List.filter]

theorem logb_ten_thousand : Real.logb 10 (1000 : ℝ) = 3 := by
  rw [show (1000 : ℝ) = 10 ^ (3 : ℕ) by norm_num, Real.logb_pow,
    Real.logb_self_eq_one (by norm_num)]
  norm_num


/-- Claim C1 counterexample. On `ceHist` (four matching entries with
`power_in_band` 0 dB, 30 dB, 30 dB, 30 dB and no timeout: matching elapsed
3.1 s < 80% of the 13.1 s total span), the code accepts the point — the
dB spread it checks is over the 3 most recent matching entries only
(30, 30, 30 dB, spread 0) — while the claim's formula (spread over the
matching entries, 30 dB > 3 dB) rejects it. -/
theorem C1_sweep_ready_counterexample :
    sweepReadyCalc (some 5) 5 2 1 (scanHist 5 1 ceHist).ffPower.length
        (sweepBufElapsed (scanHist 5 1 ceHist)) (totalBufElapsed (scanHist 5 1 ceHist))
        (sweepPointStats (scanHist 5 1 ceHist).ffPower).min_db
        (sweepPointStats (scanHist 5 1 ceHist).ffPower).max_db ∧
    ¬ sweepReadySpecClaim (some 5) 5 2 1 ceHist := by
  have hacc := ceHist_scan
  have hffp : (scanHist 5 1 ceHist).ffPower = [1, 1000, 1000, 1000] := by rw [hacc]
  have hse : sweepBufElapsed (scanHist 5 1 ceHist) = 3.1 := by
    rw [hacc]
    norm_num [sweepBufElapsed, elapsedOf]
  have hte : totalBufElapsed (scanHist 5 1 ceHist) = 13.1 := by
    rw [hacc]
    norm_num [totalBufElapsed, elapsedOf]
  have hmin : (sweepPointStats ([1, 1000, 1000, 1000] : List ℝ)).min_db = db10 1000 := by
    rw [sweepPointStats_min_db]
    norm_num [last3, listMin]
  have hmax : (sweepPointStats ([1, 1000, 1000, 1000] : List ℝ)).max_db = db10 1000 := by
    rw [sweepPointStats_max_db]
    norm_num [last3, listMax]
  constructor
  · rw [hffp, hse, hte, hmin, hmax]
    simp only [sweepReadyCalc]
    rw [if_pos (by norm_num : _ ∧ _), if_neg (by norm_num), if_neg (by norm_num),
      if_neg (by rw [sub_self]; norm_num)]
    trivial
  · have hps : (ceHist.filter (matchingB 5 1)).map (fun e => e.bufData.powerInBOI.getD 0) =
        ([1, 1000, 1000, 1000] : List ℝ) := by
      norm_num [ceHist, ceSweepEntry, ceIdleEntry, matchingB, List.filter]
    simp only [sweepReadySpecClaim]
    rintro ⟨-, -, hc | ⟨-, hsp⟩⟩
    · rw [hse, hte] at hc
      norm_num at hc
    · rw [hps] at hsp
      have h1 : listMax ([1, 1000, 1000, 1000] : List ℝ) = 1000 := by
        norm_num [listMax, max_def]
      have h2 : listMin ([1, 1000, 1000, 1000] : List ℝ) = 1 := by
        norm_num [listMin, min_def]
      rw [h1, h2, db10, db10, logb_ten_thousand, Real.logb_one] at hsp
      norm_num at hsp

/-- Claim C1 as amended: during an active sweep, with the quantities of the
readiness check computed from the history scan, the point is accepted
exactly when the buffer's detection found the expected frequency AND the
tone has settled AND (the matching elapsed time has reached 80% of the
total history time span OR at least 3 matching entries exist with the
max-minus-min `power_in_band` spread in dB — over the up to 3 MOST RECENT
matching entries, not over all of them — at most 3 dB). -/
theorem C1_sweep_ready_amended (fnd : Option ℚ) (curr toneDur settle : ℚ)
    (hist : List HistEntry) :
    sweepReadyCalc fnd curr toneDur settle
        (scanHist curr settle hist).ffPower.length
        (sweepBufElapsed (scanHist curr settle hist))
        (totalBufElapsed (scanHist curr settle hist))
        (sweepPointStats (scanHist curr settle hist).ffPower).min_db
        (sweepPointStats (scanHist curr settle hist).ffPower).max_db ↔
      (fnd = some curr ∧ settle ≤ toneDur ∧
        ((0.8 : ℚ) * totalBufElapsed (scanHist curr settle hist) ≤
            sweepBufElapsed (scanHist curr settle hist) ∨
          (3 ≤ (hist.filter (matchingB curr settle)).length ∧
            db10 (listMax (last3 ((hist.filter (matchingB curr settle)).map
                (fun e => e.bufData.powerInBOI.getD 0)))) -
              db10 (listMin (last3 ((hist.filter (matchingB curr settle)).map
                (fun e => e.bufData.powerInBOI.getD 0)))) ≤ 3))) :=
  sweepReady_iff fnd curr toneDur settle hist

/-- Concrete history for the C4 counterexample: four matching entries with
`power_in_band` 1, 2, 2, 2. -/
def ce4Hist : List HistEntry :=
  [ceIdleEntry, ceSweepEntry 10 1, ceSweepEntry 11 2,
   ceSweepEntry 12 2, ceSweepEntry 13 2]

theorem ce4Hist_scan :
    scanHist 5 1 ce4Hist =
      ⟨[0, 10, 11, 12, 13], [0.1, 0.1, 0.1, 0.1, 0.1], [0, 0, 0, 0, 0],
       [10, 11, 12, 13], [0.1, 0.1, 0.1, 0.1], [1, 2, 2, 2]⟩ := by
  rw [scanHist_eq]
  norm_num [ce4Hist, ceSweepEntry, ceIdleEntry, matchingB, List.filter]

/-- Claim C4 counterexample. On `ce4Hist` the sweep point IS accepted (the
last three matching powers are all 2, spread 0 dB, no timeout), but the
recorded amplitude is `sqrt` of the average over ALL four matching powers
(`sqrt(7/4)`), not `sqrt` of the average over the 3 most recent (`sqrt 2`):
the recorded amplitude is NOT determined by the 3 most recent matching
entries alone. -/
theorem C4_recorded_amplitude_counterexample :
    sweepReadyCalc (some 5) 5 2 1 (scanHist 5 1 ce4Hist).ffPower.length
        (sweepBufElapsed (scanHist 5 1 ce4Hist)) (totalBufElapsed (scanHist 5 1 ce4Hist))
        (sweepPointStats (scanHist 5 1 ce4Hist).ffPower).min_db
        (sweepPointStats (scanHist 5 1 ce4Hist).ffPower).max_db ∧
    Real.sqrt (sweepPointStats (scanHist 5 1 ce4Hist).ffPower).avg_lin ≠
      Real.sqrt (listAvg (last3 (scanHist 5 1 ce4Hist).ffPower)) := by
  have hacc := ce4Hist_scan
  have hffp : (scanHist 5 1 ce4Hist).ffPower = [1, 2, 2, 2] := by rw [hacc]
  have hse : sweepBufElapsed (scanHist 5 1 ce4Hist) = 3.1 := by
    rw [hacc]
    norm_num [sweepBufElapsed, elapsedOf]
  have hte : totalBufElapsed (scanHist 5 1 ce4Hist) = 13.1 := by
    rw [hacc]
    norm_num [totalBufElapsed, elapsedOf]
  have hmin : (sweepPointStats ([1, 2, 2, 2] : List ℝ)).min_db = db10 2 := by
    rw [sweepPointStats_min_db]
    norm_num [last3, listMin]
  have hmax : (sweepPointStats ([1, 2, 2, 2] : List ℝ)).max_db = db10 2 := by
    rw [sweepPointStats_max_db]
    norm_num [last3, listMax]
  constructor
  · rw [hffp, hse, hte, hmin, hmax]
    simp only [sweepReadyCalc]
    rw [if_pos (by norm_num : _ ∧ _), if_neg (by norm_num), if_neg (by norm_num),
      if_neg (by rw [sub_self]; norm_num)]
    trivial
  · rw [hffp, sweepPointStats_avg_lin]
    have hfull : listAvg ([1, 2, 2, 2] : List ℝ) = 7 / 4 := by
      norm_num [listAvg]
    have hlast : listAvg (last3 ([1, 2, 2, 2] : List ℝ)) = 2 := by
      norm_num [last3, listAvg]
    rw [hfull, hlast]
    exact ne_of_lt (Real.sqrt_lt_sqrt (by norm_num) (by norm_num))

/-- Claim C4 as amended: the recorded amplitude is
`sqrt(avg power_in_band)` where the linear average is over ALL matching
entries (the full matching slice, even when more than 3 are available);
only the min/avg/max dB statistics are restricted to the 3 most recent
matching entries once more than 3 exist. -/
theorem C4_recorded_amplitude_amended (powers : List ℝ) :
    Real.sqrt (sweepPointStats powers).avg_lin = Real.sqrt (listAvg powers) ∧
    (3 < powers.length →
      (sweepPointStats powers).min_db = db10 (listMin (powers.drop (powers.length - 3))) ∧
      (sweepPointStats powers).max_db = db10 (listMax (powers.drop (powers.length - 3))) ∧
      (sweepPointStats powers).avg_db = db10 (listAvg (powers.drop (powers.length - 3)))) := by
  refine ⟨by rw [sweepPointStats_avg_lin], fun h3 => ⟨?_, ?_, ?_⟩⟩
  · rw [sweepPointStats_min_db, last3, if_pos h3]
  · rw [sweepPointStats_max_db, last3, if_pos h3]
  · rw [sweepPointStats_avg_db, last3, if_pos h3]

/-- Witness for C4 as amended at the concrete power history `[1, 2, 2, 2]`:
more than 3 entries match and the min-dB statistic is over `[2, 2, 2]`. -/
theorem C4_recorded_amplitude_amended_witness :
    3 < ([1, 2, 2, 2] : List ℝ).length ∧
    (sweepPointStats ([1, 2, 2, 2] : List ℝ)).min_db = db10 (listMin [2, 2, 2]) := by
  refine ⟨by norm_num, ?_⟩
  have h := ((C4_recorded_amplitude_amended ([1, 2, 2, 2] : List ℝ)).2 (by norm_num)).1
  simpa using h

/- ------------------------------------------------------------------ -/
/- Calibration resampler (`refreq_ampl`)                               -/
/- ------------------------------------------------------------------ -/

/-- Natural log after clamping to the `1e-12` floor,
`np.log(np.clip(x, 1e-12, None))`. -/
noncomputable def clipLog (x : ℝ) : ℝ :=
  Real.log (max x 1e-12)

open Classical in
/-- Specification of `np.searchsorted(ref, v)` (side `left`) on a sorted
reference: the number of leading elements `< v`, i.e. the first index whose
element is `>= v`. -/
noncomputable def bisectLeft (ref : List ℝ) (v : ℝ) : ℕ :=
  match ref with
  | [] => 0
  | a :: t => if a < v then bisectLeft t v + 1 else 0

/-- The extended log-frequency array of `refreq_ampl`: the code prepends a
sentinel one `ref_freq_step` below the first log-frequency (`np.insert`)
and appends one a step above the last (`np.append`). `ref_freq_step` is
computed — as in the source, line 323, which mixes the linear and the log
array — as `ref_freq_list[1] - ref_log_freq_list[0]`. -/
noncomputable def extLogFreq (ref_freq_list : List ℝ) : List ℝ :=
  let lf := ref_freq_list.map clipLog
  let ref_freq_step := ref_freq_list.getD 1 0 - lf.getD 0 0
  (lf.getD 0 0 - ref_freq_step) :: (lf ++ [lf.getD (lf.length - 1) 0 + ref_freq_step])

/-- The extended log-amplitude array: the boundary log-amplitudes are
replicated at both ends. -/
noncomputable def extLogAmpl (ref_ampl_list : List ℝ) : List ℝ :=
  let la := ref_ampl_list.map clipLog
  la.getD 0 0 :: (la ++ [la.getD (la.length - 1) 0])

/-- The interpolation the vectorized code performs for one target
frequency `v`: with `j = srch_ind + 1` (the `+1` shift after `np.insert`),
linearly interpolate the log-amplitude between the extended points `j-1`
and `j` at `x = log(clip v)`, then exponentiate. -/
noncomputable def interpAt (ref_freq_list ref_ampl_list : List ℝ) (v : ℝ) : ℝ :=
  let j := bisectLeft ref_freq_list v + 1
  let x2 := (extLogFreq ref_freq_list).getD j 0
  let y2 := (extLogAmpl ref_ampl_list).getD j 0
  let x1 := (extLogFreq ref_freq_list).getD (j - 1) 0
  let y1 := (extLogAmpl ref_ampl_list).getD (j - 1) 0
  Real.exp (y1 + ((y2 - y1) / (x2 - x1)) * (clipLog v - x1))

/-- `AudioAnalyzer.refreq_ampl`: resample an amplitude curve onto a new
frequency grid by log-log interpolation. The numpy code computes, with
parallel arrays, exactly `interpAt` at each target frequency (all indexing
into the extended arrays is in bounds by construction when the reference
has at least 2 points; for shorter references Python raises on
`ref_freq_list[1]`, a case the claims exclude). -/
noncomputable def refreq_ampl (ref_freq_list ref_ampl_list new_freq_list : List ℝ) : List ℝ :=
  new_freq_list.map (interpAt ref_freq_list ref_ampl_list)

theorem refreq_ampl_length (rf ra nf : List ℝ) :
    (refreq_ampl rf ra nf).length = nf.length := by
  simp [refreq_ampl]

theorem refreq_ampl_getD (rf ra nf : List ℝ) (i : ℕ) (hi : i < nf.length) :
    (refreq_ampl rf ra nf).getD i 0 = interpAt rf ra (nf.getD i 0) := by
  have h1 : i < (refreq_ampl rf ra nf).length := by
    rw [refreq_ampl_length]; exact hi
  rw [List.getD_eq_getElem _ _ h1, List.getD_eq_getElem _ _ hi]
  simp [refreq_ampl]

theorem bisectLeft_self (rf : List ℝ) (hs : rf.Pairwise (· < ·)) :
    ∀ i, (hi : i < rf.length) → bisectLeft rf (rf.getD i 0) = i := by
  induction rf with
  | nil => intro i hi; simp at hi
  | cons a t ih =>
    rw [List.pairwise_cons] at hs
    intro i hi
    cases i with
    | zero =>
      simp only [List.getD_cons_zero, bisectLeft]
      rw [if_neg (lt_irrefl a)]
    | succ j =>
      have hj : j < t.length := Nat.lt_of_succ_lt_succ hi
      have hmem : t.getD j 0 ∈ t := by
        rw [List.getD_eq_getElem _ _ hj]
        exact List.getElem_mem hj
      simp only [List.getD_cons_succ, bisectLeft]
      rw [if_pos (hs.1 _ hmem), ih hs.2 j hj]

theorem extLogFreq_getD_succ (rf : List ℝ) (i : ℕ) (hi : i < rf.length) :
    (extLogFreq rf).getD (i + 1) 0 = clipLog (rf.getD i 0) := by
  have hmap : i < (rf.map clipLog).length := by simpa using hi
  simp only [extLogFreq, List.getD_cons_succ]
  rw [List.getD_append _ _ _ _ hmap, List.getD_eq_getElem _ _ hmap,
    List.getD_eq_getElem _ _ hi, List.getElem_map]

theorem extLogAmpl_getD_succ (ra : List ℝ) (i : ℕ) (hi : i < ra.length) :
    (extLogAmpl ra).getD (i + 1) 0 = clipLog (ra.getD i 0) := by
  have hmap : i < (ra.map clipLog).length := by simpa using hi
  simp only [extLogAmpl, List.getD_cons_succ]
  rw [List.getD_append _ _ _ _ hmap, List.getD_eq_getElem _ _ hmap,
    List.getD_eq_getElem _ _ hi, List.getElem_map]

theorem extLogFreq_getD_zero (rf : List ℝ) :
    (extLogFreq rf).getD 0 0 =
      (rf.map clipLog).getD 0 0 - (rf.getD 1 0 - (rf.map clipLog).getD 0 0) := by
  simp [extLogFreq]

theorem extLogAmpl_getD_zero (ra : List ℝ) :
    (extLogAmpl ra).getD 0 0 = (ra.map clipLog).getD 0 0 := by
  simp [extLogAmpl]

/- ------------------------------------------------------------------ -/
/- Claim C2: resampler length and round-trip identity                  -/
/- ------------------------------------------------------------------ -/

/-- Claim C2 counterexample. The curve `freqs = [1, 2]`, `mags = [0, 1]`
is valid by the spec's own data-model invariant (strictly increasing
frequencies, magnitudes ≥ 0), but resampling it onto its own grid does not
return the original magnitudes: `np.clip(·, 1e-12, None)` lifts the zero
magnitude to `1e-12`, and every output of the resampler is a (positive)
exponential. -/
theorem C2_resampler_counterexample :
    refreq_ampl [1, 2] [0, 1] [1, 2] ≠ ([0, 1] : List ℝ) := by
  intro h
  have h0 : (refreq_ampl [1, 2] ([0, 1] : List ℝ) [1, 2]).getD 0 0 = (0 : ℝ) := by
    rw [h]
    simp
  rw [refreq_ampl_getD _ _ _ 0 (by norm_num)] at h0
  exact absurd h0 (ne_of_gt (Real.exp_pos _))

/-- Claim C2 as amended: for a reference curve with at least 2 points,
strictly increasing frequencies bounded below by the clip floor `1e-12`,
and magnitudes at or above the clip floor `1e-12` (not merely ≥ 0: smaller
magnitudes are lifted by the clamp, breaking the identity), the output
length always equals the target grid length, and resampling the reference
onto its own grid returns the original magnitudes. -/
theorem C2_resampler_amended (rf ra nf : List ℝ)
    (hlen2 : 2 ≤ rf.length) (hra : ra.length = rf.length)
    (hsort : rf.Pairwise (· < ·))
    (hf : ∀ x ∈ rf, (1e-12 : ℝ) ≤ x) (hm : ∀ y ∈ ra, (1e-12 : ℝ) ≤ y) :
    (refreq_ampl rf ra nf).length = nf.length ∧ refreq_ampl rf ra rf = ra := by
  refine ⟨refreq_ampl_length rf ra nf, ?_⟩
  have hmemf : ∀ i, (hi : i < rf.length) → (1e-12 : ℝ) ≤ rf.getD i 0 := by
    intro i hi
    refine hf _ ?_
    rw [List.getD_eq_getElem _ _ hi]
    exact List.getElem_mem hi
  have hposf : ∀ i, (hi : i < rf.length) → (0 : ℝ) < rf.getD i 0 := by
    intro i hi
    have := hmemf i hi
    linarith [this]
  have hclipf : ∀ i, (hi : i < rf.length) → clipLog (rf.getD i 0) = Real.log (rf.getD i 0) := by
    intro i hi
    rw [clipLog, max_eq_left (hmemf i hi)]
  have hlt : ∀ i j, (hi : i < rf.length) → (hj : j < rf.length) → i < j →
      rf.getD i 0 < rf.getD j 0 := by
    intro i j hi hj hij
    rw [List.getD_eq_getElem _ _ hi, List.getD_eq_getElem _ _ hj]
    exact List.pairwise_iff_getElem.mp hsort i j hi hj hij
  apply List.ext_getElem (by rw [refreq_ampl_length, hra])
  intro i h1 h2
  have hif : i < rf.length := by
    rw [refreq_ampl_length] at h1
    exact h1
  rw [← List.getD_eq_getElem (refreq_ampl rf ra rf) 0 h1, ← List.getD_eq_getElem ra 0 h2,
    refreq_ampl_getD rf ra rf i hif]
  -- unfold the interpolation at target frequency rf[i]
  simp only [interpAt, bisectLeft_self rf hsort i hif, Nat.add_sub_cancel]
  have hx2 : (extLogFreq rf).getD (i + 1) 0 = clipLog (rf.getD i 0) :=
    extLogFreq_getD_succ rf i hif
  have hy2 : (extLogAmpl ra).getD (i + 1) 0 = clipLog (ra.getD i 0) := by
    apply extLogAmpl_getD_succ
    rw [hra]
    exact hif
  -- the denominator x2 - x1 is positive in both the boundary and the
  -- interior case
  have hdenom : (extLogFreq rf).getD i 0 < (extLogFreq rf).getD (i + 1) 0 := by
    cases i with
    | zero =>
      rw [extLogFreq_getD_zero rf, hx2]
      have h0len : 0 < rf.length := by omega
      have h1len : 1 < rf.length := by omega
      have hmap0 : (rf.map clipLog).getD 0 0 = clipLog (rf.getD 0 0) := by
        have hm0 : 0 < (rf.map clipLog).length := by simpa using h0len
        rw [List.getD_eq_getElem _ _ hm0, List.getD_eq_getElem _ _ h0len, List.getElem_map]
      rw [hmap0]
      have hlog : Real.log (rf.getD 0 0) ≤ rf.getD 0 0 :=
        Real.log_le_self (le_of_lt (hposf 0 h0len))
      have h01 : rf.getD 0 0 < rf.getD 1 0 := hlt 0 1 h0len h1len (by norm_num)
      rw [hclipf 0 h0len]
      linarith
    | succ k =>
      have hk : k < rf.length := by omega
      have hk1 : k + 1 < rf.length := by omega
      rw [hx2, extLogFreq_getD_succ rf k hk, hclipf k hk, hclipf (k + 1) hk1]
      exact Real.log_lt_log (hposf k hk) (hlt k (k + 1) hk hk1 (by omega))
  have hne : (extLogFreq rf).getD (i + 1) 0 - (extLogFreq rf).getD i 0 ≠ 0 :=
    ne_of_gt (by linarith)
  rw [hx2] at hne ⊢
  rw [div_mul_cancel₀ _ hne, hy2]
  have hrai : (1e-12 : ℝ) ≤ ra.getD i 0 := by
    refine hm _ ?_
    have hia : i < ra.length := by rw [hra]; exact hif
    rw [List.getD_eq_getElem _ _ hia]
    exact List.getElem_mem hia
  rw [clipLog, max_eq_left hrai, add_sub_cancel]
  exact Real.exp_log (by linarith)

/-- Witness for C2 as amended: the two-point curve `([1, 2], [1, 4])` —
output length 3 on a 3-point target grid, and identity when resampled onto
its own grid. -/
theorem C2_resampler_amended_witness :
    2 ≤ ([1, 2] : List ℝ).length ∧
    (refreq_ampl [1, 2] [1, 4] [5, 7, 9]).length = 3 ∧
    refreq_ampl [1, 2] [1, 4] [1, 2] = ([1, 4] : List ℝ) := by
  have hs : ([1, 2] : List ℝ).Pairwise (· < ·) := by
    rw [List.pairwise_cons]
    refine ⟨?_, List.pairwise_singleton _ _⟩
    intro b hb
    rw [List.mem_singleton] at hb
    subst hb
    norm_num
  have hf : ∀ x ∈ ([1, 2] : List ℝ), (1e-12 : ℝ) ≤ x := by
    norm_num [List.forall_mem_cons]
  have hm : ∀ y ∈ ([1, 4] : List ℝ), (1e-12 : ℝ) ≤ y := by
    norm_num [List.forall_mem_cons]
  refine ⟨by norm_num, ?_, ?_⟩
  · have h := (C2_resampler_amended [1, 2] [1, 4] [5, 7, 9] (by norm_num) (by norm_num) hs hf hm).1
    simpa using h
  · exact (C2_resampler_amended [1, 2] [1, 4] [1, 2] (by norm_num) (by norm_num) hs hf hm).2

/- ------------------------------------------------------------------ -/
/- ConfigGuard: the parameter setters                                  -/
/- ------------------------------------------------------------------ -/

/-- Value of a string of decimal digits. -/
def natOfDigits (s : List Char) : ℕ :=
  s.foldl (fun a c => 10 * a + (c.toNat - '0'.toNat)) 0

/-- Match of the anchored regex `^\d+(\.\d+)?$` used by
`changeStartFreq` / `changeStopFreq`: one or more digits, optionally
followed by a point and one or more digits (no sign, no exponent). -/
def matchesUDec (s : List Char) : Bool :=
  let ip := s.takeWhile Char.isDigit
  let rest := s.drop ip.length
  !ip.isEmpty &&
    (rest.isEmpty ||
      match rest with
      | '.' :: fp => !fp.isEmpty && fp.all Char.isDigit
      | _ => false)

/-- Exact value of text matching `^\d+(\.\d+)?$` (`float(...)` modelled
without rounding). -/
def parseUDec (s : List Char) : ℚ :=
  let ip := s.takeWhile Char.isDigit
  let rest := s.drop ip.length
  match rest with
  | '.' :: fp => (natOfDigits ip : ℚ) + (natOfDigits fp : ℚ) / 10 ^ fp.length
  | _ => (natOfDigits ip : ℚ)

/-- Match of the anchored regex `^[+-]?\d+(\.\d+)?$` used by
`changeSweepPoints`. -/
def matchesSDec (s : List Char) : Bool :=
  match s with
  | '+' :: t => matchesUDec t
  | '-' :: t => matchesUDec t
  | _ => matchesUDec s

/-- Python `int(text)`: an optional sign followed by digits only; any other
text (in particular a matched decimal with a fractional part, like "1.5")
raises `ValueError` (`none`). -/
def pyIntOfText (s : List Char) : Option ℤ :=
  match s with
  | '+' :: t => if !t.isEmpty && t.all Char.isDigit then some (natOfDigits t : ℤ) else none
  | '-' :: t => if !t.isEmpty && t.all Char.isDigit then some (-(natOfDigits t : ℤ)) else none
  | t => if !t.isEmpty && t.all Char.isDigit then some (natOfDigits t : ℤ) else none

/-- A Python value delivered to a setter: the GUI sends numbers to the gain
and history-window setters and text to the others. -/
inductive PyVal where
  | num (q : ℚ)
  | text (s : List Char)

def C_FREQ_MAX : ℚ := 20000
def C_FREQ_MIN : ℚ := 50
def C_GAIN_MAX_DB : ℚ := 200
def C_GAIN_MIN_DB : ℚ := 0
def C_SWEEP_POINTS_MAX : ℤ := 100
def C_SWEEP_POINTS_MIN : ℤ := 1
def C_HIST_DUR_MAX : ℚ := 10
def C_HIST_DUR_MIN : ℚ := 0

/-- `AudioAnalyzer.changeStartFreq`: parse-and-clamp text matching the
unsigned decimal regex, keep the previous value otherwise. -/
def changeStartFreq (newFreq : List Char) (start_freq : ℚ) : ℚ :=
  if matchesUDec newFreq then
    let v := parseUDec newFreq
    if v ≤ C_FREQ_MIN then C_FREQ_MIN
    else if C_FREQ_MAX ≤ v then C_FREQ_MAX
    else v
  else start_freq

/-- `AudioAnalyzer.changeStopFreq` (same guard and clamp). -/
def changeStopFreq (newFreq : List Char) (stop_freq : ℚ) : ℚ :=
  if matchesUDec newFreq then
    let v := parseUDec newFreq
    if v ≤ C_FREQ_MIN then C_FREQ_MIN
    else if C_FREQ_MAX ≤ v then C_FREQ_MAX
    else v
  else stop_freq

/-- `AudioAnalyzer.changeGainDb`: NO text guard — the value is compared
numerically right away, so a text input hits Python `str <= int`, a
`TypeError` (`none`), instead of being ignored. -/
def changeGainDb (newGainDb : PyVal) (gain_db : ℚ) : Option ℚ :=
  match newGainDb with
  | .num q =>
      some (if q ≤ C_GAIN_MIN_DB then C_GAIN_MIN_DB
            else if C_GAIN_MAX_DB ≤ q then C_GAIN_MAX_DB else q)
  | .text _ => none

/-- `AudioAnalyzer.changeHistDur`: like the gain setter, no text guard. -/
def changeHistDur (newHistDur : PyVal) (hist_dur : ℚ) : Option ℚ :=
  match newHistDur with
  | .num q =>
      some (if q ≤ C_HIST_DUR_MIN then C_HIST_DUR_MIN
            else if C_HIST_DUR_MAX ≤ q then C_HIST_DUR_MAX else q)
  | .text _ => none

/-- `AudioAnalyzer.changeSweepPoints`: regex-guarded (with optional sign),
then `int(text)` — which raises `ValueError` (`none`) when the matched text
has a fractional part — then clamp. -/
def changeSweepPoints (newSweepPoints : List Char) (sweep_points : ℤ) : Option ℤ :=
  if matchesSDec newSweepPoints then
    match pyIntOfText newSweepPoints with
    | none => none
    | some v =>
        some (if v ≤ C_SWEEP_POINTS_MIN then C_SWEEP_POINTS_MIN
              else if C_SWEEP_POINTS_MAX ≤ v then C_SWEEP_POINTS_MAX else v)
  else some sweep_points

/-- The clamp chain `if v ≤ lo then lo elif hi ≤ v then hi else v` is the
clamp into `[lo, hi]`. -/
theorem clampChain_eq {α : Type} [LinearOrder α] (lo hi q : α) (h : lo ≤ hi) :
    (if q ≤ lo then lo else if hi ≤ q then hi else q) = max lo (min hi q) := by
  split_ifs with h1 h2
  · rw [min_eq_right (h1.trans h), max_eq_left h1]
  · rw [min_eq_left h2, max_eq_right h]
  · push_neg at h1 h2
    rw [min_eq_right h2.le, max_eq_right h1.le]

/- ------------------------------------------------------------------ -/
/- Claim C8: setter clamping and non-numeric input                     -/
/- ------------------------------------------------------------------ -/

/-- Claim C8 counterexample. The gain setter performs no text guard: on the
non-numeric input "abc" the comparison `newGainDb <= C_GAIN_MIN_DB` is a
Python `str <= int` `TypeError` — the input is not "silently ignored with
the previous value left unchanged and no failure". -/
theorem C8_config_guard_counterexample :
    changeGainDb (PyVal.text ['a', 'b', 'c']) 60 = none ∧
    changeGainDb (PyVal.text ['a', 'b', 'c']) 60 ≠ some 60 := by
  exact ⟨rfl, by simp [changeGainDb]⟩

/-- Claim C8 as amended: the start/stop frequency setters clamp matching
numeric text into `[50, 20000]` and leave the previous value on
non-matching text; the sweep-points setter clamps matching integral text
into `[1, 100]`, leaves the previous value on non-matching text, but fails
(`ValueError`) on matching text with a fractional part; the gain and
history-window setters clamp numeric input into `[0, 200]` and `[0, 10]`
but FAIL (`TypeError`) on text input instead of ignoring it. -/
theorem C8_config_guard_amended :
    (∀ (q : ℚ) (prev : ℚ), changeGainDb (PyVal.num q) prev =
        some (max C_GAIN_MIN_DB (min C_GAIN_MAX_DB q))) ∧
    (∀ (s : List Char) (prev : ℚ), changeGainDb (PyVal.text s) prev = none) ∧
    (∀ (q : ℚ) (prev : ℚ), changeHistDur (PyVal.num q) prev =
        some (max C_HIST_DUR_MIN (min C_HIST_DUR_MAX q))) ∧
    (∀ (s : List Char) (prev : ℚ), changeHistDur (PyVal.text s) prev = none) ∧
    (∀ (s : List Char) (prev : ℚ), matchesUDec s = true →
        changeStartFreq s prev = max C_FREQ_MIN (min C_FREQ_MAX (parseUDec s))) ∧
    (∀ (s : List Char) (prev : ℚ), matchesUDec s = false → changeStartFreq s prev = prev) ∧
    (∀ (s : List Char) (prev : ℚ), matchesUDec s = true →
        changeStopFreq s prev = max C_FREQ_MIN (min C_FREQ_MAX (parseUDec s))) ∧
    (∀ (s : List Char) (prev : ℚ), matchesUDec s = false → changeStopFreq s prev = prev) ∧
    (∀ (s : List Char) (prev : ℤ) (v : ℤ), matchesSDec s = true → pyIntOfText s = some v →
        changeSweepPoints s prev =
          some (max C_SWEEP_POINTS_MIN (min C_SWEEP_POINTS_MAX v))) ∧
    (∀ (s : List Char) (prev : ℤ), matchesSDec s = true → pyIntOfText s = none →
        changeSweepPoints s prev = none) ∧
    (∀ (s : List Char) (prev : ℤ), matchesSDec s = false →
        changeSweepPoints s prev = some prev) := by
  refine ⟨?_, ?_, ?_, ?_, ?_, ?_, ?_, ?_, ?_, ?_, ?_⟩
  · intro q prev
    simp only [changeGainDb]
    rw [clampChain_eq _ _ _ (by norm_num [C_GAIN_MIN_DB, C_GAIN_MAX_DB])]
  · intro s prev
    rfl
  · intro q prev
    simp only [changeHistDur]
    rw [clampChain_eq _ _ _ (by norm_num [C_HIST_DUR_MIN, C_HIST_DUR_MAX])]
  · intro s prev
    rfl
  · intro s prev hm
    simp only [changeStartFreq, hm, if_true]
    rw [clampChain_eq _ _ _ (by norm_num [C_FREQ_MIN, C_FREQ_MAX])]
  · intro s prev hm
    simp [changeStartFreq, hm]
  · intro s prev hm
    simp only [changeStopFreq, hm, if_true]
    rw [clampChain_eq _ _ _ (by norm_num [C_FREQ_MIN, C_FREQ_MAX])]
  · intro s prev hm
    simp [changeStopFreq, hm]
  · intro s prev v hm hv
    simp only [changeSweepPoints, hm, if_true, hv]
    rw [clampChain_eq _ _ _ (by norm_num [C_SWEEP_POINTS_MIN, C_SWEEP_POINTS_MAX])]
  · intro s prev hm hv
    simp [changeSweepPoints, hm, hv]
  · intro s prev hm
    simp [changeSweepPoints, hm]

/-- Witness for C8 as amended: gain 250 clamps to 200 and -10 clamps to 0;
the non-numeric text "abc" leaves the prior start frequency unchanged. -/
theorem C8_config_guard_amended_witness :
    changeGainDb (PyVal.num 250) 60 = some 200 ∧
    changeGainDb (PyVal.num (-10)) 60 = some 0 ∧
    matchesUDec ['a', 'b', 'c'] = false ∧
    changeStartFreq ['a', 'b', 'c'] 77 = 77 := by
  refine ⟨?_, ?_, ?_, ?_⟩
  · rw [C8_config_guard_amended.1 250 60]
    norm_num [C_GAIN_MIN_DB, C_GAIN_MAX_DB]
  · rw [C8_config_guard_amended.1 (-10) 60]
    norm_num [C_GAIN_MIN_DB, C_GAIN_MAX_DB]
  · rfl
  · exact C8_config_guard_amended.2.2.2.2.2.1 ['a', 'b', 'c'] 77 rfl

/- ------------------------------------------------------------------ -/
/- The analyzer state and the `analyze` pass                           -/
/- ------------------------------------------------------------------ -/

/-- The `apply_cal` control field (Python `False` / `True` / `None` /
`[freq_list, ampl_list]`). -/
inductive CalCtl where
  | off
  | on
  | remove
  | capture (freq_list : List ℚ) (ampl_list : List ℝ)

/-- Python truthiness of `apply_cal`: `True` and a (two-element) list are
truthy, `False` and `None` are falsy. -/
def CalCtl.truthy : CalCtl → Bool
  | .on => true
  | .capture _ _ => true
  | _ => false

/-- The mutable analyzer state touched by `AudioAnalyzer.analyze`. -/
structure AnaState where
  gain_db : ℚ
  settle_dur : ℚ
  hist_dur : ℚ
  hist_list : List HistEntry
  apply_cal : CalCtl
  cal_freq_list : List ℚ
  cal_ampl_list : List ℝ
  runNoiseMeas : Bool
  measNoise_points : ℕ
  measNoise_db : List ℝ
  measNoiseCnt : ℕ
  runDelayMeas : Bool
  measDelaySpikeThresh_db : ℝ
  measDelaySpike_TS : Option ℚ
  runSweepMeas : Bool
  sweep_freq : ℚ
  sweep_points : ℕ
  sweepFreqs : List (Option ℚ)
  sweepAmpls : List (Option ℝ)
  sweepCnt : ℕ
  analysis_num : ℕ

/-- The amplitude scale factor `10 ** (gain_db / 20)`. -/
noncomputable def gainScale (gain_db : ℚ) : ℝ :=
  (10 : ℝ) ^ ((gain_db : ℝ) / 20)

/-- Noise measurement collection (`analyze` lines 418-424): while armed and
below the point count, record the total power in dB and disarm after the
last point. (The list write is in bounds by the state invariant
`len measNoise_db = measNoise_points`, re-established whenever the
measurement is armed.) -/
def noiseStep (s : AnaState) (powerTotal_db : ℝ) : AnaState :=
  if s.runNoiseMeas ∧ s.measNoiseCnt < s.measNoise_points then
    { s with
      measNoise_db := s.measNoise_db.set s.measNoiseCnt powerTotal_db,
      measNoiseCnt := s.measNoiseCnt + 1,
      runNoiseMeas := if s.measNoise_points ≤ s.measNoiseCnt + 1 then false else true }
  else s

open Classical in
/-- Delay-spike detection (`analyze` lines 427-433): while armed, a buffer
whose total power exceeds the spike threshold records the timestamp of the
loudest sample and disarms. The guards are nested as Python's
short-circuiting `and`. -/
noncomputable def delayStep (s : AnaState) (powerTotal_db : ℝ) (volt_list : List ℚ)
    (inputBuf_TS t_samp : ℚ) : AnaState :=
  if s.runDelayMeas then
    if s.measDelaySpikeThresh_db < powerTotal_db then
      { s with
        measDelaySpike_TS := some (inputBuf_TS + (argmaxL volt_list : ℚ) * t_samp),
        runDelayMeas := false }
    else s
  else s

/-- End-of-pass calibration control (`analyze` lines 685-693): `None`
requests removal (notify and reset to off); a captured `[freqs, ampls]`
pair becomes the active calibration curve. -/
def calStep (s : AnaState) : AnaState :=
  match s.apply_cal with
  | .remove => { s with apply_cal := .off }
  | .capture f a => { s with cal_freq_list := f, cal_ampl_list := a, apply_cal := .on }
  | _ => s

open Classical in
/-- Sweep-point detection and storage (`analyze` lines 604-639): when the
point is ready, store the current frequency and `sqrt(avg_powerInBOI)` at
index `sweepCnt` — unless that would overflow `sweep_points` (warning, no
change) or the slot is already occupied (error log, no change). Reading
`sweepFreqs[sweepCnt]` raises (`none`) if the list is shorter than
`sweep_points`. -/
noncomputable def sweepStep (s : AnaState) (foundSweepFreq : Option ℚ)
    (currSweepFreq toneDuration : ℚ) : Option AnaState :=
  let acc := scanHist currSweepFreq s.settle_dur s.hist_list
  let st := sweepPointStats acc.ffPower
  if sweepReadyCalc foundSweepFreq currSweepFreq toneDuration s.settle_dur
      acc.ffPower.length (sweepBufElapsed acc) (totalBufElapsed acc) st.min_db st.max_db then
    if s.sweep_points ≤ s.sweepCnt then some s
    else
      match s.sweepFreqs.get? s.sweepCnt with
      | none => none
      | some (some _) => some s
      | some none =>
          some { s with
            sweepFreqs := s.sweepFreqs.set s.sweepCnt (some currSweepFreq),
            sweepAmpls := s.sweepAmpls.set s.sweepCnt (some (Real.sqrt st.avg_lin)),
            sweepCnt := s.sweepCnt + 1,
            runSweepMeas := false }
  else some s

open Classical in
/-- One full analysis pass (`AudioAnalyzer.analyze`), as a transformer of
the analyzer state; `none` models an uncaught Python exception. `fftAmpl`
is the magnitude spectrum `np.abs(rfft(volt_list))` — the FFT itself is
numerics the claims do not constrain, so it enters as a parameter and
everything downstream of it is modelled. Plot/log message sends are I/O
without state effect and are dropped. -/
noncomputable def analyze (s : AnaState) (now : ℚ) (time_list volt_list : List ℚ)
    (fftAmpl : List ℝ) (inputBuf_TS currSweepFreq currSweepFreq_TS : ℚ) :
    Option AnaState :=
  let s1 := { s with analysis_num := s.analysis_num + 1 }
  -- time_list[1] - time_list[0]: IndexError if the buffer has < 2 samples
  match time_list.get? 0, time_list.get? 1 with
  | some t0, some t1 =>
    let num_samp := volt_list.length
    let t_samp := t1 - t0
    let bufDuration := (num_samp : ℚ) * t_samp
    let toneDuration := if 0 < currSweepFreq then inputBuf_TS - currSweepFreq_TS else 0
    -- rfftfreq(n, d) computes 1/(n*d): ZeroDivisionError when n*d = 0
    if (num_samp : ℚ) * t_samp = 0 then none
    else
      -- distBtwnFreq = freq_list[1] - freq_list[0]: IndexError if n < 2
      match (rfftfreq num_samp t_samp).get? 0, (rfftfreq num_samp t_samp).get? 1 with
      | some f0, some f1 =>
        let distBtwnFreq := f1 - f0
        let freq_list := (rfftfreq num_samp t_samp).drop 1   -- DC bin removed
        let ampl1 : List ℝ :=
          (fftAmpl.drop 1).map (fun a => a * 2 / (num_samp : ℝ) * gainScale s1.gain_db)
        let ampl_list : List ℝ :=
          if CalCtl.truthy s1.apply_cal then
            let cal := if s1.cal_ampl_list.length ≠ ampl1.length then
                refreq_ampl (s1.cal_freq_list.map (Rat.cast : ℚ → ℝ)) s1.cal_ampl_list
                  (freq_list.map (Rat.cast : ℚ → ℝ))
              else s1.cal_ampl_list
            ampl1.zipWith (fun a c => a / c) cal
          else ampl1
        let powerTotal := sumSq ampl_list
        let powerTotal_db := 10 * Real.logb 10 powerTotal
        let s2 := noiseStep s1 powerTotal_db
        let s3 := delayStep s2 powerTotal_db volt_list inputBuf_TS t_samp
        -- powerInBOI: an out-of-range bucket raises (propagated as `none`)
        match (if 0 < currSweepFreq
          then (powerInBOICalc ampl_list distBtwnFreq currSweepFreq).map some
          else some none) with
        | none => none
        | some powerInBOI =>
          let foundSweepFreq := if 0 < currSweepFreq
            then detectFound ampl_list distBtwnFreq currSweepFreq
            else none
          let bufData : BufData :=
            ⟨bufDuration, toneDuration, foundSweepFreq, powerTotal, powerInBOI⟩
          let s4 := { s3 with
            hist_list := hist_add s3.hist_dur now freq_list ampl_list bufData s3.hist_list }
          match (if s4.runSweepMeas = true ∧ currSweepFreq = s4.sweep_freq ∧ 0 < currSweepFreq
            then sweepStep s4 foundSweepFreq currSweepFreq toneDuration
            else some s4) with
          | none => none
          | some s5 => some (calStep s5)
      | _, _ => none
  | _, _ => none

theorem noiseStep_sweepFreqs (s : AnaState) (p : ℝ) :
    (noiseStep s p).sweepFreqs = s.sweepFreqs := by
  rw [noiseStep]; split <;> rfl

theorem noiseStep_sweepAmpls (s : AnaState) (p : ℝ) :
    (noiseStep s p).sweepAmpls = s.sweepAmpls := by
  rw [noiseStep]; split <;> rfl

theorem noiseStep_sweepCnt (s : AnaState) (p : ℝ) :
    (noiseStep s p).sweepCnt = s.sweepCnt := by
  rw [noiseStep]; split <;> rfl

theorem delayStep_sweepFreqs (s : AnaState) (p : ℝ) (v : List ℚ) (ts dt : ℚ) :
    (delayStep s p v ts dt).sweepFreqs = s.sweepFreqs := by
  rw [delayStep]; split <;> (try split) <;> rfl

theorem delayStep_sweepAmpls (s : AnaState) (p : ℝ) (v : List ℚ) (ts dt : ℚ) :
    (delayStep s p v ts dt).sweepAmpls = s.sweepAmpls := by
  rw [delayStep]; split <;> (try split) <;> rfl

theorem delayStep_sweepCnt (s : AnaState) (p : ℝ) (v : List ℚ) (ts dt : ℚ) :
    (delayStep s p v ts dt).sweepCnt = s.sweepCnt := by
  rw [delayStep]; split <;> (try split) <;> rfl

theorem calStep_sweepFreqs (s : AnaState) : (calStep s).sweepFreqs = s.sweepFreqs := by
  rw [calStep]; split <;> rfl

theorem calStep_sweepAmpls (s : AnaState) : (calStep s).sweepAmpls = s.sweepAmpls := by
  rw [calStep]; split <;> rfl

theorem calStep_sweepCnt (s : AnaState) : (calStep s).sweepCnt = s.sweepCnt := by
  rw [calStep]; split <;> rfl

/-- A successful analysis pass with a non-positive stimulus frequency never
touches the sweep measurement results (the storage block is guarded by
`currSweepFreq > 0`). -/
theorem analyze_sweep_frame (s : AnaState) (now : ℚ) (time_list volt_list : List ℚ)
    (fftAmpl : List ℝ) (inputBuf_TS currSweepFreq currSweepFreq_TS : ℚ)
    (hf : currSweepFreq ≤ 0) (s2 : AnaState)
    (h : analyze s now time_list volt_list fftAmpl inputBuf_TS currSweepFreq
      currSweepFreq_TS = some s2) :
    s2.sweepFreqs = s.sweepFreqs ∧ s2.sweepAmpls = s.sweepAmpls ∧
      s2.sweepCnt = s.sweepCnt := by
  have hflt : ¬ (0 < currSweepFreq) := not_lt.mpr hf
  simp only [analyze] at h
  -- peel the failure branches of the pass one by one
  split at h
  rotate_left
  · exact Option.noConfusion h
  rename_i t0 t1 heq0 heq1
  split at h
  · exact Option.noConfusion h
  rename_i hz
  split at h
  rotate_left
  · exact Option.noConfusion h
  rename_i f0 f1 hq0 hq1
  split at h
  · exact Option.noConfusion h
  rename_i powerInBOI hb
  split at h
  · exact Option.noConfusion h
  rename_i s5 hsw
  rw [if_neg (fun hg => hflt hg.2.2)] at hsw
  rw [Option.some_inj] at hsw h
  subst hsw
  subst h
  refine ⟨?_, ?_, ?_⟩
  · simp [calStep_sweepFreqs, delayStep_sweepFreqs, noiseStep_sweepFreqs]
  · simp [calStep_sweepAmpls, delayStep_sweepAmpls, noiseStep_sweepAmpls]
  · simp [calStep_sweepCnt, delayStep_sweepCnt, noiseStep_sweepCnt]

/- ------------------------------------------------------------------ -/
/- Claim C10: plain mic buffers do not modify sweep results            -/
/- ------------------------------------------------------------------ -/

/-- Claim C10 (confirmed). An analysis pass with stimulus frequency ≤ 0
(as delivered by `mic_data`, which passes −1) leaves the recorded sweep
frequencies, sweep amplitudes and sweep count unchanged, for every analyzer
state and buffer — stated over the optional result so that a failing pass
(which changes nothing) is covered too. -/
theorem C10_mic_data_frame (s : AnaState) (now : ℚ) (time_list volt_list : List ℚ)
    (fftAmpl : List ℝ) (inputBuf_TS currSweepFreq currSweepFreq_TS : ℚ)
    (hf : currSweepFreq ≤ 0) :
    (analyze s now time_list volt_list fftAmpl inputBuf_TS currSweepFreq
        currSweepFreq_TS).map (fun s2 => (s2.sweepFreqs, s2.sweepAmpls, s2.sweepCnt)) =
      (analyze s now time_list volt_list fftAmpl inputBuf_TS currSweepFreq
        currSweepFreq_TS).map (fun _ => (s.sweepFreqs, s.sweepAmpls, s.sweepCnt)) := by
  cases ha : analyze s now time_list volt_list fftAmpl inputBuf_TS currSweepFreq
      currSweepFreq_TS with
  | none => rfl
  | some s2 =>
    obtain ⟨e1, e2, e3⟩ := analyze_sweep_frame s now time_list volt_list fftAmpl
      inputBuf_TS currSweepFreq currSweepFreq_TS hf s2 ha
    simp [e1, e2, e3]

/-- A concrete initial analyzer state (the constructor defaults). -/
def initState : AnaState where
  gain_db := 60
  settle_dur := 1
  hist_dur := 3
  hist_list := []
  apply_cal := .off
  cal_freq_list := []
  cal_ampl_list := []
  runNoiseMeas := false
  measNoise_points := 10
  measNoise_db := []
  measNoiseCnt := 0
  runDelayMeas := false
  measDelaySpikeThresh_db := -15
  measDelaySpike_TS := none
  runSweepMeas := false
  sweep_freq := 0
  sweep_points := 100
  sweepFreqs := []
  sweepAmpls := []
  sweepCnt := 0
  analysis_num := 0

/-- Witness for C10 at a concrete state and buffer (the `mic_data` handler
passes stimulus frequency −1). -/
theorem C10_mic_data_frame_witness :
    ((-1 : ℚ) ≤ 0) ∧
    (analyze initState 0 [0, 1] [0, 0] [] 0 (-1) 0).map
        (fun s2 => (s2.sweepFreqs, s2.sweepAmpls, s2.sweepCnt)) =
      (analyze initState 0 [0, 1] [0, 0] [] 0 (-1) 0).map
        (fun _ => (initState.sweepFreqs, initState.sweepAmpls, initState.sweepCnt)) :=
  ⟨by norm_num, C10_mic_data_frame initState 0 [0, 1] [0, 0] [] 0 (-1) 0 (by norm_num)⟩

/- ------------------------------------------------------------------ -/
/- Claim C7: degenerate buffers                                        -/
/- ------------------------------------------------------------------ -/

/-- Claim C7 counterexample. Analyzing a single-sample buffer does NOT skip
the pass gracefully: `time_list[1]` raises an uncaught `IndexError`
(modelled as `none`) — there is no `InvalidBuffer` guard anywhere in the
code, so the claim that the pass "is skipped without crashing" is false. -/
theorem C7_invalid_buffer_counterexample :
    analyze initState 0 [0] [1] [] 0 (-1) 0 = none := by
  simp [analyze]

/-- Claim C7 as amended: the code performs no buffer validation at all; a
buffer with fewer than 2 time samples or fewer than 2 voltage samples, or a
zero sample period, makes the pass fail with an uncaught error
(`IndexError` at `time_list[1]` or `freq_list[1]`, `ZeroDivisionError` in
`rfftfreq`), modelled as `none` — rather than being skipped as an
`InvalidBuffer` condition. (A negative sample period and non-finite
samples are not detected at all; floating-point non-finite values are
outside this model.) -/
theorem C7_invalid_buffer_amended :
    (∀ (s : AnaState) (now : ℚ) (time_list volt_list : List ℚ) (fftAmpl : List ℝ)
        (inputBuf_TS currSweepFreq currSweepFreq_TS : ℚ),
      time_list.length < 2 →
      analyze s now time_list volt_list fftAmpl inputBuf_TS currSweepFreq
        currSweepFreq_TS = none) ∧
    (∀ (s : AnaState) (now : ℚ) (time_list volt_list : List ℚ) (fftAmpl : List ℝ)
        (inputBuf_TS currSweepFreq currSweepFreq_TS : ℚ),
      volt_list.length < 2 →
      analyze s now time_list volt_list fftAmpl inputBuf_TS currSweepFreq
        currSweepFreq_TS = none) ∧
    (∀ (s : AnaState) (now : ℚ) (time_list volt_list : List ℚ) (fftAmpl : List ℝ)
        (inputBuf_TS currSweepFreq currSweepFreq_TS : ℚ) (t : ℚ),
      time_list.get? 0 = some t → time_list.get? 1 = some t →
      analyze s now time_list volt_list fftAmpl inputBuf_TS currSweepFreq
        currSweepFreq_TS = none) := by
  refine ⟨?_, ?_, ?_⟩
  · intro s now time_list volt_list fftAmpl ts f fts hlen
    have h1 : time_list.get? 1 = none := by
      rw [List.get?_eq_none]
      omega
    simp only [analyze]
    split
    case _ t0 t1 heq0 heq1 => rw [h1] at heq1; exact Option.noConfusion heq1
    case _ => rfl
  · intro s now time_list volt_list fftAmpl ts f fts hlen
    simp only [analyze]
    split
    rotate_left
    · rfl
    rename_i t0 t1 heq0 heq1
    have hq1 : (rfftfreq volt_list.length (t1 - t0)).get? 1 = none := by
      rw [List.get?_eq_none, rfftfreq, List.length_map, List.length_range]
      omega
    split
    · rfl
    rename_i hz
    split
    rotate_left
    · rfl
    rename_i f0 f1 hg0 hg1
    rw [hq1] at hg1
    exact Option.noConfusion hg1
  · intro s now time_list volt_list fftAmpl ts f fts t h0 h1
    simp only [analyze]
    split
    case _ t0 t1 heq0 heq1 =>
      rw [h0] at heq0
      rw [h1] at heq1
      rw [Option.some_inj] at heq0 heq1
      subst heq0
      subst heq1
      simp
    case _ => rfl

/-- Witness for C7 as amended: the one-sample buffer. -/
theorem C7_invalid_buffer_amended_witness :
    ([0] : List ℚ).length < 2 ∧ analyze initState 0 [0] [2] [] 0 (-1) 0 = none :=
  ⟨by norm_num,
    C7_invalid_buffer_amended.1 initState 0 [0] [2] [] 0 (-1) 0 (by norm_num)⟩

end AudioAna
